import Mathlib

/-!
# Shallow embedding of the VanillaJS utility functions

This file embeds the rate-limiting utilities (`debounce`, `throttle`) and the
object utilities (`isEmpty`, `mergeObjects`) of the VanillaJS library, as they
appear in the library source, and proves the specification's claims about them.

Modelling conventions:
* clock times are naturals (milliseconds, the value of `Date.now()`);
* callback arguments are an abstract type `α`;
* a JS `setTimeout` handle together with the closure it runs is modelled by
  the data the closure captured plus the absolute time at which it fires;
* call lists are processed in nondecreasing clock order; a timer whose fire
  time is at or before the next call's clock time fires before that call, and
  any timer still pending after the last call fires at the end of the run.
-/

/-- State of one `throttle(func, limit)` closure.

`lastRan` is the JS variable `lastRan`: `none` is `undefined`, `some n` is the
number `n` (JS truthiness makes both `undefined` and `0` falsy).

`pending` models the single outstanding `setTimeout` timer held in `lastFunc`:
absolute fire time, the captured `now`, and the captured call arguments;
`none` means no live timer. -/
structure ThState (α : Type) where
  lastRan : Option Nat
  pending : Option (Nat × Nat × α)
deriving Repr, DecidableEq

/-- The fresh throttle closure: `let lastFunc; let lastRan;` — both undefined. -/
def throttleInit : ThState α := ⟨none, none⟩

/-- Firing of the throttle's scheduled timer callback
`() => { if (now - lastRan >= limit) { func(...args); lastRan = now; } }`.

Returns the new state and the execution of `func` (fire time, captured args)
when the guard passes.  The guard compares the `now` captured when the timer
was scheduled against the current `lastRan`; when `lastRan` is `undefined`
the JS subtraction is `NaN` and the comparison is false.  `cn - L` is `Nat`
subtraction; in every run over clock-ordered calls `L ≤ cn` holds, so it
agrees with the JS number subtraction. -/
def throttleFire (limit : Nat) (s : ThState α) : ThState α × Option (Nat × α) :=
  match s.pending with
  | none => (s, none)
  | some (ft, cn, a) =>
    match s.lastRan with
    | some L =>
      if limit ≤ cn - L then (⟨some cn, none⟩, some (ft, a))
      else (⟨some L, none⟩, none)
    | none => (⟨none, none⟩, none)

/-- One invocation of the throttled wrapper at clock time `t` with args `a`:

```
const now = Date.now();
if (!lastRan) { func(...args); lastRan = now; }
else { clearTimeout(lastFunc);
       lastFunc = setTimeout(cb, limit - (now - lastRan)); }
```

Returns the new state and the immediate (leading-edge) execution, if any.
In the `!lastRan` branch the pending timer is *not* cleared.  A negative
`setTimeout` delay is clamped to 0 by the host, which the truncated `Nat`
subtraction `limit - (t - L)` reproduces. -/
def throttleCall (limit : Nat) (s : ThState α) (t : Nat) (a : α) :
    ThState α × Option (Nat × α) :=
  match s.lastRan with
  | some L =>
    if L ≠ 0 then (⟨some L, some (t + (limit - (t - L)), t, a)⟩, none)
    else (⟨some t, s.pending⟩, some (t, a))
  | none => (⟨some t, s.pending⟩, some (t, a))

/-- Process one incoming call: first let the pending timer fire if it is due
(fire time at or before the call's clock time), then run the wrapper body. -/
def throttleStep (limit : Nat) (s : ThState α) (t : Nat) (a : α) :
    ThState α × List (Nat × α) :=
  let p :=
    match s.pending with
    | some (ft, _, _) => if ft ≤ t then throttleFire limit s else (s, none)
    | none => (s, none)
  let q := throttleCall limit p.1 t a
  (q.1, p.2.toList ++ q.2.toList)

/-- Run the throttled wrapper over a clock-ordered list of calls
`(time, args)`, letting any timer still pending fire at the end.  Returns
every execution of `func` as a `(time, args)` pair, in order. -/
def throttleRun (limit : Nat) (s : ThState α) : List (Nat × α) → List (Nat × α)
  | [] => (throttleFire limit s).2.toList
  | (t, a) :: rest =>
    let q := throttleStep limit s t a
    q.2 ++ throttleRun limit q.1 rest

/-- State of one `debounce(func, delay)` closure: the single pending timeout
held in `timeout` — absolute fire time and the captured call arguments —
or `none` when no timer is live. -/
def DbState (α : Type) : Type := Option (Nat × α)

/-- One invocation of the debounced wrapper at clock time `t` with args `a`:
`clearTimeout(timeout); timeout = setTimeout(() => func(...args), delay);`.
If the old timer was already due at time `t` it fires first (producing an
execution); otherwise `clearTimeout` cancels it.  Either way a fresh timer
for `t + delay` with the new arguments replaces it. -/
def debounceStep (delay : Nat) (p : DbState α) (t : Nat) (a : α) :
    DbState α × List (Nat × α) :=
  match p with
  | some (ft, fa) =>
    if ft ≤ t then (some (t + delay, a), [(ft, fa)])
    else (some (t + delay, a), [])
  | none => (some (t + delay, a), [])

/-- Run the debounced wrapper over a clock-ordered list of calls, letting the
timer left pending after the last call fire at the end.  Returns every
execution of `func` as a `(time, args)` pair, in order. -/
def debounceRun (delay : Nat) (p : DbState α) : List (Nat × α) → List (Nat × α)
  | [] => match p with | some pr => [pr] | none => []
  | (t, a) :: rest =>
    let q := debounceStep delay p t a
    q.2 ++ debounceRun delay q.1 rest

/-- Burst condition on a call list: calls come in nondecreasing clock order
and each call arrives strictly less than `delay` after the one before it. -/
def BurstWithin (delay : Nat) (calls : List (Nat × α)) : Prop :=
  List.Chain' (fun x y => x.1 ≤ y.1 ∧ y.1 < x.1 + delay) calls

/-- The host scheduler's timer table: the live timers as `(handle, payload)`
pairs in creation order, and the next fresh handle.  Unlike the `pending`
field of `ThState`/`DbState`, the table can hold any number of simultaneous
timers, so the at-most-one-timer invariant is provable here, not assumed. -/
structure Sched (τ : Type) where
  timers : List (Nat × τ)
  nextId : Nat
deriving Repr

/-- `setTimeout(cb, d)`: registers a fresh timer and returns its handle. -/
def Sched.setTimeout (s : Sched τ) (p : τ) : Sched τ × Nat :=
  ({ timers := s.timers ++ [(s.nextId, p)], nextId := s.nextId + 1 }, s.nextId)

/-- `clearTimeout(h)`: removes the timer with handle `h`; a no-op on
`clearTimeout(undefined)` or on a handle whose timer already fired. -/
def Sched.clearTimeout (s : Sched τ) (h : Option Nat) : Sched τ :=
  match h with
  | none => s
  | some i => { s with timers := s.timers.filter (fun x => x.1 != i) }

/-- A timer that fires leaves the table. -/
def Sched.fire (s : Sched τ) (i : Nat) : Sched τ :=
  { s with timers := s.timers.filter (fun x => x.1 != i) }

/-- An event a wrapper instance sees: an incoming call at clock time `t`, or
the host firing the timer with handle `i`. -/
inductive TimerEv (α : Type) where
  | call (t : Nat) (a : α)
  | fire (i : Nat)

/-- The `debounce(func, delay)` closure over the explicit scheduler: the timer
table and the stored handle variable `timeout` (stale after its timer fired).
A debounce timer's payload is its captured `(fire time, args)`. -/
structure DebounceM (α : Type) where
  sched : Sched (Nat × α)
  timeout : Option Nat

def DebounceM.init : DebounceM α := ⟨⟨[], 0⟩, none⟩

/-- A call runs
`clearTimeout(timeout); timeout = setTimeout(() => func(...args), delay);`;
a firing timer leaves the table and `timeout` keeps the stale handle. -/
def DebounceM.step (delay : Nat) (m : DebounceM α) : TimerEv α → DebounceM α
  | .call t a =>
    let s1 := m.sched.clearTimeout m.timeout
    let r := s1.setTimeout (t + delay, a)
    ⟨r.1, some r.2⟩
  | .fire i => ⟨m.sched.fire i, m.timeout⟩

def DebounceM.run (delay : Nat) (evs : List (TimerEv α)) : DebounceM α :=
  evs.foldl (DebounceM.step delay) DebounceM.init

/-- The `throttle(func, limit)` closure over the explicit scheduler.  A
throttle timer's payload is `(requested delay, captured now, captured args)`. -/
structure ThrottleM (α : Type) where
  sched : Sched (Nat × Nat × α)
  lastFunc : Option Nat
  lastRan : Option Nat

def ThrottleM.init : ThrottleM α := ⟨⟨[], 0⟩, none, none⟩

/-- A call runs the wrapper body (leading execution, or clear-and-reschedule);
a firing timer leaves the table and its body
`if (now - lastRan >= limit) { func(...args); lastRan = now; }` runs. -/
def ThrottleM.step (limit : Nat) (m : ThrottleM α) : TimerEv α → ThrottleM α
  | .call t a =>
    match m.lastRan with
    | some L =>
      if L ≠ 0 then
        let s1 := m.sched.clearTimeout m.lastFunc
        let r := s1.setTimeout (limit - (t - L), t, a)
        ⟨r.1, some r.2, some L⟩
      else ⟨m.sched, m.lastFunc, some t⟩
    | none => ⟨m.sched, m.lastFunc, some t⟩
  | .fire i =>
    match m.sched.timers.find? (fun x => x.1 == i) with
    | some (_, _, cn, _) =>
      let s1 := m.sched.fire i
      match m.lastRan with
      | some L =>
        if limit ≤ cn - L then ⟨s1, m.lastFunc, some cn⟩
        else ⟨s1, m.lastFunc, some L⟩
      | none => ⟨s1, m.lastFunc, none⟩
    | none => m

def ThrottleM.run (limit : Nat) (evs : List (TimerEv α)) : ThrottleM α :=
  evs.foldl (ThrottleM.step limit) ThrottleM.init

/-- The invariant: the table holds at most one live timer, and a live timer's
handle is the one the closure stored. -/
def DebounceM.OneTimer (m : DebounceM α) : Prop :=
  m.sched.timers.length ≤ 1 ∧ ∀ x ∈ m.sched.timers, some x.1 = m.timeout

/-- The invariant: the table holds at most one live timer, and a live timer's
handle is the one the closure stored in `lastFunc`. -/
def ThrottleM.OneTimer (m : ThrottleM α) : Prop :=
  m.sched.timers.length ≤ 1 ∧ ∀ x ∈ m.sched.timers, some x.1 = m.lastFunc

/-- For the error-propagation claim the callback may throw: `func : α → Except
ε Unit` and neither wrapper contains a `try`/`catch`.  `debounceRunE` mirrors
`debounceRun` and collects, for a run, first the results each *caller* of the
wrapped function receives (the wrapper body only calls `clearTimeout` and
`setTimeout`, so every caller gets a normal return) and second the results the
*scheduler* receives from each timer body `() => func(...args)` (exactly
`func` at the captured arguments, uncaught). -/
def debounceRunE (func : α → Except ε Unit) (delay : Nat) (p : DbState α) :
    List (Nat × α) → List (Except ε Unit) × List (Except ε Unit)
  | [] =>
    ([], match p with
      | some (_, fa) => [func fa]
      | none => [])
  | (t, a) :: rest =>
    let q := debounceStep delay p t a
    let r := debounceRunE func delay q.1 rest
    (Except.ok () :: r.1, q.2.map (fun e => func e.2) ++ r.2)

/-- One invocation of the throttled wrapper with a throwing callback, paired
with the result its caller receives: `func` runs synchronously inside the
wrapper only on the leading edge (`!lastRan` branch); the scheduling branch
returns normally to the caller. -/
def throttleCallE (func : α → Except ε Unit) (limit : Nat) (s : ThState α)
    (t : Nat) (a : α) : ThState α × Except ε Unit :=
  let r := throttleCall limit s t a
  (r.1, match r.2 with
    | some e => func e.2
    | none => Except.ok ())

/-- The firing of the throttle's scheduled timer, paired with the result the
scheduler receives from the timer body: when the guard passes, the uncaught
result of `func` at the captured arguments. -/
def throttleFireE (func : α → Except ε Unit) (limit : Nat) (s : ThState α) :
    ThState α × Option (Except ε Unit) :=
  let r := throttleFire limit s
  (r.1, r.2.map (fun e => func e.2))

/-- The dynamic value fragment the object utilities operate on: `null`,
`undefined`, numbers, and objects.  `obj isArr fields` covers plain objects
(`isArr = false`) and arrays (`isArr = true`, keyed by index strings);
`fields` lists the own enumerable properties in insertion order.  The model
treats inputs as trees: distinct arguments share no references. -/
inductive JSVal : Type where
  | vnull : JSVal
  | vundef : JSVal
  | num : Int → JSVal
  | obj : Bool → List (String × JSVal) → JSVal
deriving Repr

/-- `x instanceof Object`: true for objects and arrays, false for `null`,
`undefined` and numbers. -/
def instanceofObject : JSVal → Bool
  | .obj _ _ => true
  | _ => false

/-- The own enumerable properties that `for (key in v)` iterates and a spread
`{...v}` or `Object.assign` copies; a primitive, `null` or `undefined`
contributes none. -/
def jsFields : JSVal → List (String × JSVal)
  | .obj _ fs => fs
  | _ => []

/-- Key membership in a field list. -/
def hasKeyF (fs : List (String × JSVal)) (k : String) : Bool :=
  fs.any (fun p => p.1 == k)

/-- Property read `o[k]` on a field list. -/
def lookupF (fs : List (String × JSVal)) (k : String) : Option JSVal :=
  (fs.find? (fun p => p.1 == k)).map Prod.snd

/-- `key in v`: property membership; `none` models the TypeError the `in`
operator throws when its right operand is a number, `null` or `undefined`. -/
def jsIn (k : String) : JSVal → Option Bool
  | .obj _ fs => some (hasKeyF fs k)
  | _ => none

/-- Property write `o[k] = v` on a field list: overwrite in place, preserving
insertion order, else append. -/
def setF (fs : List (String × JSVal)) (k : String) (v : JSVal) :
    List (String × JSVal) :=
  if hasKeyF fs k then fs.map (fun p => if p.1 == k then (k, v) else p)
  else fs ++ [(k, v)]

/-- Copy the own enumerable properties of `src` onto `fs` in order — the
write loop shared by `Object.assign` and object spread. -/
def assignF (fs : List (String × JSVal)) (src : List (String × JSVal)) :
    List (String × JSVal) :=
  src.foldl (fun acc p => setF acc p.1 p.2) fs

/-- `{ ...a, ...b }`: a fresh plain object holding the own enumerable
properties of `a` and then of `b`. -/
def jsSpread2 (a b : JSVal) : JSVal :=
  .obj false (assignF (assignF [] (jsFields a)) (jsFields b))

/-- `Object.assign(dst, srcVal)` for an object `dst` (the only shape the merge
applies it to): `dst` mutated by the properties of `srcVal`. -/
def objAssignVal : JSVal → JSVal → JSVal
  | .obj ia fs, r => .obj ia (assignF fs (jsFields r))
  | a, _ => a

mutual

/-- `mergeObjects(target, source)` from the source:

```
for (let key in source) {
  if (source[key] instanceof Object && key in target) {
    Object.assign(source[key], this.mergeObjects(target[key], source[key]));
  }
}
return { ...target, ...source };
```

Returns `(source after the in-place mutations of the loop, the returned
object)`; `none` models the TypeError thrown by `key in target` when `target`
is a number, `null` or `undefined`. -/
def mergeObjects (target source : JSVal) : Option (JSVal × JSVal) :=
  match source with
  | .obj isArr fs =>
    match mergeLoop target fs with
    | none => none
    | some fs' => some (.obj isArr fs', jsSpread2 target (.obj isArr fs'))
  | v => some (v, jsSpread2 target v)

/-- The `for (let key in source)` loop of `mergeObjects`, threading the
in-place updates of the nested source objects through the field list. -/
def mergeLoop (target : JSVal) :
    List (String × JSVal) → Option (List (String × JSVal))
  | [] => some []
  | (k, sv) :: rest =>
    if instanceofObject sv then
      match jsIn k target with
      | none => none
      | some true =>
        match mergeObjects ((lookupF (jsFields target) k).getD .vundef) sv with
        | none => none
        | some (sv1, r) =>
          (mergeLoop target rest).map (fun fs' => (k, objAssignVal sv1 r) :: fs')
      | some false => (mergeLoop target rest).map (fun fs' => (k, sv) :: fs')
    else (mergeLoop target rest).map (fun fs' => (k, sv) :: fs')

end

/-- The key strings used in concrete instances. -/
def kA : String := "a"

def kB : String := "b"

/-- `Object.keys(v)`: the own enumerable property names; `none` models the
TypeError `Object.keys` throws on `null` and `undefined`; a number has none. -/
def jsObjectKeys : JSVal → Option (List String)
  | .vnull => none
  | .vundef => none
  | .num _ => some []
  | .obj _ fs => some (fs.map Prod.fst)

/-- `isEmpty(obj)` from the source: `return Object.keys(obj).length === 0;`
(`none`: the call throws). -/
def isEmpty (v : JSVal) : Option Bool :=
  (jsObjectKeys v).map (fun ks => ks.length == 0)

/-- While a debounce burst continues, each new call arrives before the pending
timer fires, cancels it, and re-arms for its own time plus `delay`; only the
timer armed by the last call survives and fires. -/
theorem debounceRun_pending_burst (delay : Nat) :
    ∀ (rest : List (Nat × α)) (t : Nat) (a : α),
      BurstWithin delay ((t, a) :: rest) →
      debounceRun delay (some (t + delay, a)) rest
        = [((rest.getLastD (t, a)).1 + delay, (rest.getLastD (t, a)).2)]
  | [], t, a, _ => by simp [debounceRun, List.getLastD]
  | (t', a') :: rest', t, a, hc => by
    obtain ⟨⟨h1, h2⟩, hc'⟩ := List.chain'_cons.mp hc
    have hnotdue : ¬ t + delay ≤ t' := by omega
    have hstep :
        debounceRun delay (some (t + delay, a)) ((t', a') :: rest')
          = debounceRun delay (some (t' + delay, a')) rest' := by
      simp [debounceRun, debounceStep, hnotdue]
    rw [hstep, List.getLastD_cons]
    exact debounceRun_pending_burst delay rest' t' a' hc'

/-- C4: for every nonempty sequence of calls to the debounced wrapper in which
consecutive calls are less than `delay` apart, `func` executes exactly once,
`delay` after the last call and with the arguments of the last call. -/
theorem debounce_burst_single_trailing_execution (delay : Nat) (t : Nat) (a : α)
    (rest : List (Nat × α)) (hc : BurstWithin delay ((t, a) :: rest)) :
    debounceRun delay none ((t, a) :: rest)
      = [((((t, a) :: rest).getLastD (t, a)).1 + delay,
          (((t, a) :: rest).getLastD (t, a)).2)] := by
  have h0 : debounceRun delay (none : DbState α) ((t, a) :: rest)
      = debounceRun delay (some (t + delay, a)) rest := by
    simp [debounceRun, debounceStep]
  rw [h0, List.getLastD_cons]
  exact debounceRun_pending_burst delay rest t a hc

/-- Witness for C4: `debounce(fn, 50)` called at t=0, 10, 20 runs `fn` once,
at t=70, with the t=20 call's arguments. -/
theorem debounce_burst_single_trailing_execution_witness :
    debounceRun 50 (none : DbState Nat) [(0, 1), (10, 2), (20, 3)] = [(70, 3)] := by
  simpa using debounce_burst_single_trailing_execution 50 0 1 [(10, 2), (20, 3)]
    (by norm_num [BurstWithin, List.chain'_cons, List.chain'_singleton])

/-- C1 (actual behaviour at the spec's scenario): `throttle(fn, 100)` called at
clock times 1000, 1030, 1060, 1090, 1120 with arguments 0..4 executes `fn`
exactly twice — at t=1000 with the first call's arguments and at t=1120 with
the t=1120 call's arguments.  The timer armed by the t=1090 call fires at
t=1100 but its guard compares the captured `now = 1090` against
`lastRan = 1000`, so `90 >= 100` fails and the t=1090 arguments are dropped;
no execution happens at t=1100. -/
theorem throttle_scenario_executes_at_1000_and_1120 :
    throttleRun 100 (throttleInit (α := Nat))
      [(1000, 0), (1030, 1), (1060, 2), (1090, 3), (1120, 4)]
      = [(1000, 0), (1120, 4)] := by decide

/-- C2 (actual behaviour): a burst that ends — `throttle(fn, 100)` called at
t=1000 and t=1030 with no later call — permanently drops the final call: the
trailing timer fires at t=1100 but its guard compares the captured
`now = 1030` with `lastRan = 1000`, `30 >= 100` fails, and `fn` never runs
with the final call's arguments. -/
theorem throttle_final_call_of_burst_dropped :
    throttleRun 100 (throttleInit (α := Nat)) [(1000, 0), (1030, 1)]
      = [(1000, 0)] := by decide

/-- C3 (actual behaviour): a burst of two calls inside one interval with
positive duration — `throttle(fn, 100)` at t=2000 and t=2040 — produces
exactly one execution of `fn`, not the two (leading plus trailing) the spec
promises. -/
theorem throttle_burst_one_execution_not_two :
    throttleRun 100 (throttleInit (α := Nat)) [(2000, 10), (2040, 20)]
      = [(2000, 10)] := by decide

/-- C5: the first call to a throttled wrapper in the fresh (idle) state
always executes `func` immediately — the run's first execution happens at
that call's own clock time with its own arguments, whatever calls follow —
and a single isolated call produces exactly one execution, never two. -/
theorem throttle_single_call_executes_once_immediately (limit t : Nat) (a : α)
    (rest : List (Nat × α)) :
    throttleRun limit throttleInit ((t, a) :: rest)
        = (t, a) :: throttleRun limit ⟨some t, none⟩ rest ∧
      throttleRun limit throttleInit [(t, a)] = [(t, a)] := by
  constructor
  · simp [throttleRun, throttleStep, throttleCall, throttleInit]
  · simp [throttleRun, throttleStep, throttleCall, throttleFire, throttleInit]

/-- C8: `!lastRan` tests JS truthiness, so a recorded timestamp of `0` (the
clock of `Date.now()` returning 0 at the first execution) makes the next call
take the first-call branch again: with the first call at clock 0, a second
call inside the interval also executes `func` immediately, giving two
leading-edge executions inside a single interval. -/
theorem throttle_zero_timestamp_two_leading_executions
    (limit t2 : Nat) (a b : α) (h : t2 < limit) :
    throttleRun limit throttleInit [(0, a), (t2, b)] = [(0, a), (t2, b)] := by
  simp [throttleRun, throttleStep, throttleCall, throttleFire, throttleInit]

/-- Witness for C8: `throttle(fn, 100)` with the clock at 0 for the first call
and at 50 for the second executes `fn` immediately both times. -/
theorem throttle_zero_timestamp_two_leading_executions_witness :
    (50 < 100) ∧
      throttleRun 100 throttleInit [(0, 1), (50, 2)] = [(0, 1), (50, 2)] :=
  ⟨by decide, throttle_zero_timestamp_two_leading_executions 100 50 1 2 (by decide)⟩

/-- Under the invariant, clearing the stored handle empties the table. -/
theorem Sched.clearTimeout_stored (s : Sched τ) (h : Option Nat)
    (hall : ∀ x ∈ s.timers, some x.1 = h) :
    (s.clearTimeout h).timers = [] := by
  match h with
  | none =>
    have hnil : s.timers = [] := by
      cases hs : s.timers with
      | nil => rfl
      | cons y ys => exact absurd (hall y (by simp [hs])) (by simp)
    simp [Sched.clearTimeout, hnil]
  | some i =>
    simp only [Sched.clearTimeout]
    rw [List.filter_eq_nil_iff]
    intro x hx
    have := hall x hx
    simp_all

/-- Removing a timer from a table that satisfies the bound keeps the bound. -/
theorem Sched.fire_le (s : Sched τ) (i : Nat) (hlen : s.timers.length ≤ 1) :
    (s.fire i).timers.length ≤ 1 :=
  le_trans (List.length_filter_le _ _) hlen

theorem debounceM_step_oneTimer (delay : Nat) (m : DebounceM α) (e : TimerEv α)
    (h : m.OneTimer) : (m.step delay e).OneTimer := by
  obtain ⟨hlen, hall⟩ := h
  cases e with
  | call t a =>
    have hcleared := Sched.clearTimeout_stored m.sched m.timeout hall
    simp [DebounceM.step, DebounceM.OneTimer, Sched.setTimeout, hcleared]
  | fire i =>
    refine ⟨Sched.fire_le m.sched i hlen, ?_⟩
    intro x hx
    exact hall x (List.mem_of_mem_filter hx)

theorem throttleM_step_oneTimer (limit : Nat) (m : ThrottleM α) (e : TimerEv α)
    (h : m.OneTimer) : (m.step limit e).OneTimer := by
  obtain ⟨hlen, hall⟩ := h
  cases e with
  | call t a =>
    cases hLR : m.lastRan with
    | none => exact ⟨by simpa [ThrottleM.step, hLR] using hlen,
        by simpa [ThrottleM.step, hLR] using hall⟩
    | some L =>
      by_cases hL : L ≠ 0
      · have hcleared := Sched.clearTimeout_stored m.sched m.lastFunc hall
        simp [ThrottleM.step, ThrottleM.OneTimer, Sched.setTimeout, hLR, hL, hcleared]
      · exact ⟨by simpa [ThrottleM.step, hLR, hL] using hlen,
          by simpa [ThrottleM.step, hLR, hL] using hall⟩
  | fire i =>
    cases hf : m.sched.timers.find? (fun x => x.1 == i) with
    | none => exact ⟨by simpa [ThrottleM.step, hf] using hlen,
        by simpa [ThrottleM.step, hf] using hall⟩
    | some y =>
      obtain ⟨_, _, cn, _⟩ := y
      have hfire : ∀ x ∈ (m.sched.fire i).timers, some x.1 = m.lastFunc :=
        fun x hx => hall x (List.mem_of_mem_filter hx)
      have hfl := Sched.fire_le m.sched i hlen
      cases hLR : m.lastRan with
      | none => exact ⟨by simpa [ThrottleM.step, hf, hLR] using hfl,
          by simpa [ThrottleM.step, hf, hLR] using hfire⟩
      | some L =>
        by_cases hg : limit ≤ cn - L
        · exact ⟨by simpa [ThrottleM.step, hf, hLR, hg] using hfl,
            by simpa [ThrottleM.step, hf, hLR, hg] using hfire⟩
        · exact ⟨by simpa [ThrottleM.step, hf, hLR, hg] using hfl,
            by simpa [ThrottleM.step, hf, hLR, hg] using hfire⟩

theorem debounceM_run_oneTimer (delay : Nat) (evs : List (TimerEv α)) :
    (DebounceM.run delay evs).OneTimer := by
  suffices h : ∀ (m : DebounceM α), m.OneTimer →
      (evs.foldl (DebounceM.step delay) m).OneTimer by
    exact h DebounceM.init ⟨by simp [DebounceM.init], by simp [DebounceM.init]⟩
  induction evs with
  | nil => intro m hm; exact hm
  | cons e rest ih =>
    intro m hm
    exact ih (m.step delay e) (debounceM_step_oneTimer delay m e hm)

theorem throttleM_run_oneTimer (limit : Nat) (evs : List (TimerEv α)) :
    (ThrottleM.run limit evs).OneTimer := by
  suffices h : ∀ (m : ThrottleM α), m.OneTimer →
      (evs.foldl (ThrottleM.step limit) m).OneTimer by
    exact h ThrottleM.init ⟨by simp [ThrottleM.init], by simp [ThrottleM.init]⟩
  induction evs with
  | nil => intro m hm; exact hm
  | cons e rest ih =>
    intro m hm
    exact ih (m.step limit e) (throttleM_step_oneTimer limit m e hm)

/-- C6: over every sequence of calls and timer firings, both the debounced and
the throttled wrapper keep at most one live timer in the host table — every
`setTimeout` in their bodies comes right after `clearTimeout` of the stored
handle, which removes the only live timer. -/
theorem at_most_one_pending_timer_per_instance (delay limit : Nat)
    (evs : List (TimerEv α)) :
    (DebounceM.run delay evs).sched.timers.length ≤ 1 ∧
      (ThrottleM.run limit evs).sched.timers.length ≤ 1 :=
  ⟨(debounceM_run_oneTimer delay evs).1, (throttleM_run_oneTimer limit evs).1⟩
/-- In every debounce run the caller results are all normal returns and the
scheduler results are exactly `func` at the executed arguments. -/
theorem debounceRunE_results (func : α → Except ε Unit) (delay : Nat) :
    ∀ (calls : List (Nat × α)) (p : DbState α),
      (debounceRunE func delay p calls).1
          = List.replicate calls.length (Except.ok ()) ∧
        (debounceRunE func delay p calls).2
          = (debounceRun delay p calls).map (fun e => func e.2)
  | [], p => by
    cases p with
    | none => simp [debounceRunE, debounceRun]
    | some pr => simp [debounceRunE, debounceRun]
  | (t, a) :: rest, p => by
    obtain ⟨ih1, ih2⟩ :=
      debounceRunE_results func delay rest (debounceStep delay p t a).1
    refine ⟨?_, ?_⟩
    · simp [debounceRunE, List.replicate_succ, ih1]
    · simp [debounceRunE, debounceRun, ih2]

/-- C7: an exception thrown by the callback during its scheduled execution
propagates to the scheduler and never to a caller of the wrapped function.
For debounce, over any run: every caller receives a normal return, and the
scheduler receives exactly the uncaught results of `func` at the executed
arguments.  For throttle: a call taken in the scheduling branch (truthy
`lastRan`) returns normally to its caller, and a scheduled timer whose guard
passes hands the scheduler the uncaught result of `func` at its captured
arguments. -/
theorem callback_exception_reaches_scheduler_not_caller
    (func : α → Except ε Unit) (delay limit : Nat) (calls : List (Nat × α))
    (s s' : ThState α) (t ft cn L : Nat) (a : α)
    (hL : s.lastRan = some L) (h0 : L ≠ 0)
    (hp : s'.pending = some (ft, cn, a)) (hL' : s'.lastRan = some L)
    (hg : limit ≤ cn - L) :
    (debounceRunE func delay none calls).1
        = List.replicate calls.length (Except.ok ()) ∧
      (debounceRunE func delay none calls).2
        = (debounceRun delay none calls).map (fun e => func e.2) ∧
      (throttleCallE func limit s t a).2 = Except.ok () ∧
      (throttleFireE func limit s').2 = some (func a) := by
  obtain ⟨h1, h2⟩ := debounceRunE_results func delay calls none
  refine ⟨h1, h2, ?_, ?_⟩
  · simp [throttleCallE, throttleCall, hL, h0]
  · simp [throttleFireE, throttleFire, hp, hL', hg]

/-- Witness for C7, with a callback that throws on argument 1: the debounce
caller results of a two-call burst are normal, the scheduler receives the
thrown error from the trailing execution, a throttled scheduling-branch call
returns normally, and the throttle timer delivers the error to the scheduler. -/
theorem callback_exception_reaches_scheduler_not_caller_witness :
    (debounceRunE (fun n : Nat => if n == 1 then Except.error 7 else Except.ok ())
          50 none [(0, 0), (10, 1)]).1
        = List.replicate 2 (Except.ok ()) ∧
      (debounceRunE (fun n : Nat => if n == 1 then Except.error 7 else Except.ok ())
          50 none [(0, 0), (10, 1)]).2
        = (debounceRun 50 none [(0, 0), (10, 1)]).map
            (fun e => if e.2 == 1 then Except.error 7 else Except.ok ()) ∧
      (throttleCallE (fun n : Nat => if n == 1 then Except.error 7 else Except.ok ())
          100 ⟨some 5, none⟩ 20 1).2 = Except.ok () ∧
      (throttleFireE (fun n : Nat => if n == 1 then Except.error 7 else Except.ok ())
          100 ⟨some 5, some (105, 110, 1)⟩).2
        = some (if 1 == 1 then Except.error 7 else Except.ok ()) :=
  callback_exception_reaches_scheduler_not_caller
    (fun n : Nat => if n == 1 then Except.error 7 else Except.ok ())
    50 100 [(0, 0), (10, 1)] ⟨some 5, none⟩ ⟨some 5, some (105, 110, 1)⟩
    20 105 110 5 1 rfl (by decide) rfl rfl (by decide)
/-- `setF` adds exactly the key it writes. -/
theorem hasKeyF_setF (fs : List (String × JSVal)) (k j : String) (v : JSVal) :
    hasKeyF (setF fs k v) j = (hasKeyF fs j || (k == j)) := by
  have hkeys : ∀ (l : List (String × JSVal)),
      hasKeyF (l.map (fun p => if p.1 == k then (k, v) else p)) j
        = hasKeyF l j := by
    intro l
    induction l with
    | nil => rfl
    | cons q qs ih =>
      simp only [List.map_cons, hasKeyF, List.any_cons] at ih ⊢
      rw [ih]
      by_cases hq : q.1 = k
      · simp [hq]
      · simp [hq]
  by_cases h : hasKeyF fs k = true
  · simp only [setF, if_pos h]
    rw [hkeys]
    by_cases hkj : k = j
    · subst hkj
      simp [h]
    · simp [hkj]
  · simp only [setF, if_neg h]
    simp [hasKeyF, List.any_append]

/-- Keys of an `assignF` result: those of the base plus those of the source. -/
theorem hasKeyF_assignF :
    ∀ (src fs : List (String × JSVal)) (j : String),
      hasKeyF (assignF fs src) j = (hasKeyF fs j || hasKeyF src j)
  | [], fs, j => by simp [assignF, hasKeyF]
  | q :: qs, fs, j => by
    have ih := hasKeyF_assignF qs (setF fs q.1 q.2) j
    simp only [assignF, List.foldl_cons] at ih ⊢
    rw [ih, hasKeyF_setF]
    simp [hasKeyF, Bool.or_assoc]

/-- The merge loop leaves a source whose values are all primitive untouched. -/
theorem mergeLoop_flat (target : JSVal) :
    ∀ (fs : List (String × JSVal)),
      (∀ p ∈ fs, instanceofObject p.2 = false) →
      mergeLoop target fs = some fs
  | [], _ => by simp [mergeLoop]
  | (k, sv) :: rest, h => by
    have hsv : instanceofObject sv = false := h (k, sv) (by simp)
    have ih := mergeLoop_flat target rest (fun p hp => h p (by simp [hp]))
    simp [mergeLoop, hsv, ih]

/-- C9 (amended): for a key `k` in both objects whose values on both sides are
objects (the source side flat), the source handed back holds at `k` the
result of `Object.assign`-ing the recursive merge into the old nested object;
whenever the target side has a key `j` the source side lacks, that nested
object gains `j`, so the caller's source argument is changed by the call. -/
theorem mergeObjects_mutates_source (bt bs b1 b2 : Bool) (k j : String)
    (tf sf : List (String × JSVal))
    (hflat : ∀ p ∈ sf, instanceofObject p.2 = false)
    (hjt : hasKeyF tf j = true) (hjs : hasKeyF sf j = false) :
    ∃ sf' : List (String × JSVal),
      mergeObjects (JSVal.obj bt [(k, JSVal.obj b1 tf)])
          (JSVal.obj bs [(k, JSVal.obj b2 sf)])
        = some (JSVal.obj bs [(k, JSVal.obj b2 sf')],
            jsSpread2 (JSVal.obj bt [(k, JSVal.obj b1 tf)])
              (JSVal.obj bs [(k, JSVal.obj b2 sf')])) ∧
        hasKeyF sf' j = true ∧
        JSVal.obj bs [(k, JSVal.obj b2 sf')] ≠ JSVal.obj bs [(k, JSVal.obj b2 sf)] := by
  have h1 : mergeLoop (JSVal.obj b1 tf) sf = some sf := mergeLoop_flat _ sf hflat
  have h2 : mergeObjects (JSVal.obj b1 tf) (JSVal.obj b2 sf)
      = some (JSVal.obj b2 sf, jsSpread2 (JSVal.obj b1 tf) (JSVal.obj b2 sf)) := by
    simp [mergeObjects, h1]
  have h3 : mergeLoop (JSVal.obj bt [(k, JSVal.obj b1 tf)]) [(k, JSVal.obj b2 sf)]
      = some [(k, objAssignVal (JSVal.obj b2 sf)
          (jsSpread2 (JSVal.obj b1 tf) (JSVal.obj b2 sf)))] := by
    simp [mergeLoop, instanceofObject, jsIn, hasKeyF, lookupF, jsFields, h2]
  have hfields : jsFields (jsSpread2 (JSVal.obj b1 tf) (JSVal.obj b2 sf))
      = assignF (assignF [] tf) sf := rfl
  have hkey : hasKeyF (assignF sf
      (jsFields (jsSpread2 (JSVal.obj b1 tf) (JSVal.obj b2 sf)))) j = true := by
    rw [hfields, hasKeyF_assignF, hasKeyF_assignF, hasKeyF_assignF, hjs, hjt]
    rfl
  refine ⟨assignF sf (jsFields (jsSpread2 (JSVal.obj b1 tf) (JSVal.obj b2 sf))),
    ?_, hkey, ?_⟩
  · simp [mergeObjects, h3, objAssignVal]
  · intro heq
    have hss : assignF sf (jsFields (jsSpread2 (JSVal.obj b1 tf) (JSVal.obj b2 sf)))
        = sf := by simpa using heq
    rw [hss] at hkey
    simp [hjs] at hkey

/-- Witness for the amended C9: merging `target = {a: {b: 1}}` into
`source = {a: {}}` changes the caller's source — its nested object gains the
key `b`. -/
theorem mergeObjects_mutates_source_witness :
    ∃ sf' : List (String × JSVal),
      mergeObjects (JSVal.obj false [(kA, JSVal.obj false [(kB, JSVal.num 1)])])
          (JSVal.obj false [(kA, JSVal.obj false [])])
        = some (JSVal.obj false [(kA, JSVal.obj false sf')],
            jsSpread2 (JSVal.obj false [(kA, JSVal.obj false [(kB, JSVal.num 1)])])
              (JSVal.obj false [(kA, JSVal.obj false sf')])) ∧
        hasKeyF sf' kB = true ∧
        JSVal.obj false [(kA, JSVal.obj false sf')]
          ≠ JSVal.obj false [(kA, JSVal.obj false [])] :=
  mergeObjects_mutates_source false false false false kA kB
    [(kB, JSVal.num 1)] [] (by simp) (by simp [hasKeyF]) (by simp [hasKeyF])

/-- C9 counterexample to the claim as stated: with `target = {a: {}}` and
`source = {a: {}}` the key `a` lies in both objects and its value in `source`
is an object, yet `mergeObjects` hands the caller's source back unchanged —
the mutation adds nothing, so the source argument is not changed here. -/
theorem mergeObjects_source_unchanged_on_equal_empties :
    instanceofObject (JSVal.obj false []) = true ∧
      hasKeyF [(kA, JSVal.obj false [])] kA = true ∧
      (mergeObjects (JSVal.obj false [(kA, JSVal.obj false [])])
          (JSVal.obj false [(kA, JSVal.obj false [])])).map Prod.fst
        = some (JSVal.obj false [(kA, JSVal.obj false [])]) := by
  refine ⟨rfl, by simp [hasKeyF], ?_⟩
  simp [mergeObjects, mergeLoop, jsSpread2, assignF, setF, hasKeyF, lookupF,
    jsFields, jsIn, instanceofObject, objAssignVal]

/-- C10: `isEmpty` returns `true` exactly when its argument has zero own
enumerable keys — in particular `true` for both `{}` and `[]` — and it is not
total: on `null` and on `undefined` it throws instead of returning a boolean. -/
theorem isEmpty_iff_no_own_keys (v : JSVal) (ks : List String)
    (hk : jsObjectKeys v = some ks) :
    (isEmpty v = some true ↔ ks = []) ∧
      isEmpty (JSVal.obj false []) = some true ∧
      isEmpty (JSVal.obj true []) = some true ∧
      isEmpty JSVal.vnull = none ∧
      isEmpty JSVal.vundef = none := by
  refine ⟨?_, by simp [isEmpty, jsObjectKeys], by simp [isEmpty, jsObjectKeys],
    rfl, rfl⟩
  simp [isEmpty, hk, List.length_eq_zero]

/-- Witness for C10 at `{a: 1}`: one own key, so `isEmpty` is not `some true`;
the degenerate cases evaluate as the theorem states. -/
theorem isEmpty_iff_no_own_keys_witness :
    ((isEmpty (JSVal.obj false [(kA, JSVal.num 1)]) = some true
        ↔ [kA] = ([] : List String)) ∧
      isEmpty (JSVal.obj false []) = some true ∧
      isEmpty (JSVal.obj true []) = some true ∧
      isEmpty JSVal.vnull = none ∧
      isEmpty JSVal.vundef = none) :=
  isEmpty_iff_no_own_keys (JSVal.obj false [(kA, JSVal.num 1)]) [kA]
    (by simp [jsObjectKeys])
